import Mathlib

/-!
Verification of the LAN music server core (`main.py`): the clock-anchored
playback record (`STATE` + `_track_started_at`), the shared playlist queue
(`PLAYLIST_QUEUE`), the SSE fan-out broadcaster (`_broadcast_event`) and the
subscriber join path (`sse_events`).

Modelling conventions:
- Wall-clock instants and positions (Python floats) are modelled as rationals;
  the arithmetic performed by the source is only `+`, `-`, `max 0`, which is
  exact on rationals.
- Each call to `_set_state` reads `time.time()` several times microseconds
  apart; the embedding passes a single instant `now` per call.
- The discoverable track set (`discover_tracks()`, a filesystem scan) is an
  external collaborator; it is modelled as a fixed parameter `tracks`.
-/

set_option autoImplicit false

/-- the playback record: the `STATE` dict of `main.py` (track, paused,
position, updated) together with the module-level `_track_started_at`
(the clock anchor). -/
structure PState where
  track : Option String
  paused : Bool
  position : ℚ
  updated : ℚ
  anchor : Option ℚ
deriving DecidableEq

/-- an event handed to `_broadcast_event`: either a `state` event carrying a
copy of the `STATE` dict, or a `playlist` event carrying the queue. -/
inductive Event where
  | state (track : Option String) (paused : Bool) (position : ℚ) (updated : ℚ)
  | playlist (queue : List String)
deriving DecidableEq

/-- the initial `STATE`: no track, paused, position 0 (`main.py` lines 41-49);
`t0` is the import-time `time.time()`. -/
def initState (t0 : ℚ) : PState :=
  ⟨none, true, 0, t0, none⟩

/-- the `track is not None` branch of `_set_state` (lines 91-97): set the new
track, take position literally (default 0), paused (default False), and
re-anchor. -/
def select_fields (now : ℚ) (t : String) (paused : Option Bool)
    (position : Option ℚ) (s : PState) : PState :=
  let pos : ℚ := match position with | none => 0 | some q => q
  let pau : Bool := match paused with | none => false | some b => b
  { s with track := some t, position := pos, paused := pau,
           anchor := if pau then none else some (now - pos) }

/-- the `paused is not None and track is None` branch of `_set_state`
(lines 98-108): force-pause when no track; on play→pause fold the elapsed
time into `position` (note the source uses `+=`) and drop the anchor; on
pause→play re-anchor. -/
def apply_paused (now : ℚ) (b : Bool) (s : PState) : PState :=
  if s.track = none then { s with paused := true }
  else
    let s1 :=
      if b = true ∧ s.paused = false then
        match s.anchor with
        | some a => { s with position := s.position + max 0 (now - a), anchor := none }
        | none => s
      else s
    let s2 :=
      if b = false ∧ s.paused = true then
        { s1 with anchor := some (now - s1.position) }
      else s1
    { s2 with paused := b }

/-- the `position is not None and track is None` branch of `_set_state`
(lines 109-112): clamp the position to be non-negative and, when playing,
re-anchor so the seek takes effect immediately. -/
def apply_position (now : ℚ) (q : ℚ) (s : PState) : PState :=
  let s1 := { s with position := max 0 q }
  if s1.paused = false then { s1 with anchor := some (now - s1.position) } else s1

/-- the unconditional tail of `_set_state` (lines 113-115): when playing with
an anchor, refresh the stored position to the live value, then stamp
`updated`. -/
def finish_tick (now : ℚ) (s : PState) : PState :=
  let s1 :=
    if s.paused = false then
      match s.anchor with
      | some a => { s with position := max 0 (now - a) }
      | none => s
    else s
  { s1 with updated := now }

/-- a `state` event carrying a copy of the `STATE` dict (the anchor is a
module-level variable, not part of the dict, so it is not in the event). -/
def state_event (s : PState) : Event :=
  Event.state s.track s.paused s.position s.updated

/-- `_set_state(track, paused, position)` (lines 87-118): `none` arguments
mean "not passed". Raises `FileNotFoundError` (modelled as `Except.error`)
when a track is given that is not discoverable; on success returns the new
record and the broadcast `state` event. -/
def set_state (tracks : List String) (now : ℚ) (track : Option String)
    (paused : Option Bool) (position : Option ℚ) (s : PState) :
    Except String (PState × Event) :=
  match track with
  | some t =>
      if t ∈ tracks then
        let s' := finish_tick now (select_fields now t paused position s)
        Except.ok (s', state_event s')
      else Except.error t
  | none =>
      let s1 := match paused with | none => s | some b => apply_paused now b s
      let s2 := match position with | none => s1 | some q => apply_position now q s1
      let s' := finish_tick now s2
      Except.ok (s', state_event s')

/-- `/state` (`api_state`, lines 216-224): a copy of `STATE` with the position
resolved from the anchor when playing; never mutates the record. -/
def api_state (now : ℚ) (s : PState) : PState :=
  match s.anchor with
  | some a => if s.paused = false then { s with position := max 0 (now - a) } else s
  | none => s

/-- the position a `/state` snapshot reports at instant `now`. -/
def snap_pos (now : ℚ) (s : PState) : ℚ :=
  (api_state now s).position

/-- the whole shared mutable state of the server: the playback record plus
`PLAYLIST_QUEUE`. -/
structure Sys where
  pstate : PState
  queue : List String
deriving DecidableEq

/-- the filter in `add_to_queue` (line 125): keep only items that are in the
discoverable track set, preserving order and duplicates. -/
def valid_items (tracks items : List String) : List String :=
  items.filter (fun t => decide (t ∈ tracks))

/-- `add_to_queue` (lines 124-133) after the filter/shuffle step: `batch` is
the validated (and, when `shuffle` was requested, already permuted) list.
The queue is extended, a `playlist` event is broadcast with the extended
queue, and then, if nothing is playing and the queue is non-empty, the head
is popped and selected. A `FileNotFoundError` from that select propagates
to the HTTP caller, leaving the queue already popped. -/
def add_to_queue_core (tracks : List String) (now : ℚ) (batch : List String)
    (s : Sys) : Sys × List Event :=
  let q1 := s.queue ++ batch
  let ev1 := Event.playlist q1
  if s.pstate.track = none then
    match q1 with
    | [] => (⟨s.pstate, q1⟩, [ev1])
    | nxt :: rest =>
        match set_state tracks now (some nxt) (some false) (some 0) s.pstate with
        | Except.ok (p', ev2) => (⟨p', rest⟩, [ev1, ev2])
        | Except.error _ => (⟨s.pstate, rest⟩, [ev1])
  else (⟨s.pstate, q1⟩, [ev1])

/-- `remove_from_queue(idx)` (lines 135-138): the index arrives as an
arbitrary integer (`int(body.get("index", -1))`); only an in-bounds index
removes an entry and broadcasts. -/
def remove_from_queue (i : ℤ) (s : Sys) : Sys × List Event :=
  if 0 ≤ i ∧ i < (s.queue.length : ℤ) then
    let q' := s.queue.eraseIdx i.toNat
    (⟨s.pstate, q'⟩, [Event.playlist q'])
  else (s, [])

/-- `clear_queue()` (lines 140-142). -/
def clear_queue (s : Sys) : Sys × List Event :=
  (⟨s.pstate, []⟩, [Event.playlist []])

/-- `pop_next()` (lines 144-149): pop the head and broadcast the post-pop
queue, or return `none` with no broadcast when the queue is empty. -/
def pop_next (s : Sys) : Option String × Sys × List Event :=
  match s.queue with
  | [] => (none, s, [])
  | x :: rest => (some x, ⟨s.pstate, rest⟩, [Event.playlist rest])

/-- `/queue/next` and `/ended` (lines 186-205): pop, and either select the
popped item or pause-and-rewind. The source tests the popped value for
truthiness (`if nxt:`), so an empty-string item also takes the stop path. -/
def queue_advance (tracks : List String) (now : ℚ) (s : Sys) : Sys × List Event :=
  match pop_next s with
  | (nxt, s1, evs1) =>
      let stop :=
        match set_state tracks now none (some true) (some 0) s1.pstate with
        | Except.ok (p', ev) => (Sys.mk p' s1.queue, evs1 ++ [ev])
        | Except.error _ => (s1, evs1)
      match nxt with
      | some t =>
          if t = "" then stop
          else
            match set_state tracks now (some t) (some false) (some 0) s1.pstate with
            | Except.ok (p', ev) => (Sys.mk p' s1.queue, evs1 ++ [ev])
            | Except.error _ => (s1, evs1)
      | none => stop

/-- the request-style operations the boundary exposes (spec §6). For
`queueAddShuffled`, `batch` stands for the result of `random.shuffle` on the
validated items; reachability (below) constrains it to a permutation. -/
inductive Op where
  | selectTrack (t : String) (p : Option ℚ)
  | setPaused (b : Bool)
  | setPosition (p : ℚ)
  | queueAdd (items : List String)
  | queueAddShuffled (items : List String) (batch : List String)
  | queueRemove (i : ℤ)
  | queueClear
  | queueAdvance
  | popFront
deriving DecidableEq

/-- one boundary operation applied to the shared state, returning the new
state and the events broadcast during the call (in broadcast order).
`selectTrack` mirrors `/play`: an empty track aborts with 400 before any
mutation, and a `FileNotFoundError` surfaces as a 500 with the state
untouched. -/
def applyOp (tracks : List String) (now : ℚ) (op : Op) (s : Sys) :
    Sys × List Event :=
  match op with
  | Op.selectTrack t p =>
      if t = "" then (s, [])
      else
        match set_state tracks now (some t) (some false) p s.pstate with
        | Except.ok (p', ev) => (⟨p', s.queue⟩, [ev])
        | Except.error _ => (s, [])
  | Op.setPaused b =>
      match set_state tracks now none (some b) none s.pstate with
      | Except.ok (p', ev) => (⟨p', s.queue⟩, [ev])
      | Except.error _ => (s, [])
  | Op.setPosition p =>
      match set_state tracks now none none (some p) s.pstate with
      | Except.ok (p', ev) => (⟨p', s.queue⟩, [ev])
      | Except.error _ => (s, [])
  | Op.queueAdd items => add_to_queue_core tracks now (valid_items tracks items) s
  | Op.queueAddShuffled _ batch => add_to_queue_core tracks now batch s
  | Op.queueRemove i => remove_from_queue i s
  | Op.queueClear => clear_queue s
  | Op.queueAdvance => queue_advance tracks now s
  | Op.popFront => (pop_next s).2

/-- side condition for a step: a shuffled add must append some permutation of
the validated items (`random.shuffle` permutes the batch in place). -/
def OpOK (tracks : List String) : Op → Prop
  | Op.queueAddShuffled items batch => batch.Perm (valid_items tracks items)
  | _ => True

/-- states reachable from the initial state by boundary operations, executed
at arbitrary instants. -/
inductive Reach (tracks : List String) : Sys → Prop where
  | init (t0 : ℚ) : Reach tracks ⟨initState t0, []⟩
  | step {s : Sys} (op : Op) (now : ℚ) : Reach tracks s → OpOK tracks op →
      Reach tracks (applyOp tracks now op s).1

/-- a connected SSE listener: its queue (delivery channel) abstracted to
whether `put_nowait` currently succeeds on it. -/
structure Subscriber where
  sid : Nat
  accepts : Bool
deriving DecidableEq

/-- the delivery loop of `_broadcast_event` (lines 75-80): try a non-blocking
put on every listener, recording successful deliveries and collecting the
failing listeners in `stale`. -/
def broadcast_try (subs : List Subscriber) (ev : Event) :
    List (Nat × Event) × List Subscriber :=
  subs.foldl
    (fun acc q =>
      if q.accepts then (acc.1 ++ [(q.sid, ev)], acc.2) else (acc.1, acc.2 ++ [q]))
    ([], [])

/-- the cleanup loop of `_broadcast_event` (lines 81-85): remove each stale
listener (first matching occurrence) from the live list. -/
def remove_stale (live stale : List Subscriber) : List Subscriber :=
  stale.foldl (fun l q => l.erase q) live

/-- `_broadcast_event` (lines 72-85): the new live set and the deliveries
made. The function is total: delivery failure is absorbed, never re-raised. -/
def broadcast_event (subs : List Subscriber) (ev : Event) :
    List Subscriber × List (Nat × Event) :=
  let r := broadcast_try subs ev
  (remove_stale subs r.2, r.1)

/-- the two initial events a freshly connected SSE subscriber is sent
(`sse_events`, lines 233-241): a `state` event carrying a plain copy of the
`STATE` dict (the position is NOT resolved from the anchor), then a
`playlist` event with the current queue. -/
def subscribe_init (s : Sys) : List Event :=
  [state_event s.pstate, Event.playlist s.queue]

/-- run a timed trace of boundary operations. -/
def run_ops (tracks : List String) : Sys → List (ℚ × Op) → Sys
  | s, [] => s
  | s, (t, op) :: rest => run_ops tracks (applyOp tracks t op s).1 rest

/-- the instants of a trace lie, in order, inside the interval `[t0, t1]`. -/
def times_chain : ℚ → List (ℚ × Op) → ℚ → Prop
  | t0, [], t1 => t0 ≤ t1
  | t0, (u, _) :: rest, t1 => t0 ≤ u ∧ times_chain u rest t1

/-! ## Helper lemmas -/

/-- the record-level invariant maintained by `_set_state`: the anchor is set
exactly when playing with a track, the stored position is non-negative, and
with no track the record is paused. -/
def StateInv (p : PState) : Prop :=
  (p.anchor ≠ none ↔ (p.paused = false ∧ p.track ≠ none)) ∧
  0 ≤ p.position ∧ (p.track = none → p.paused = true)

theorem stInv_initState (t0 : ℚ) : StateInv (initState t0) := by
  simp [StateInv, initState]

theorem stInv_finish_tick {p : PState} (now : ℚ) (h : StateInv p) : StateInv (finish_tick now p) := by
  obtain ⟨h1, h2, h3⟩ := h
  unfold finish_tick
  rcases hb : p.paused with _ | _ <;> rcases ha : p.anchor with _ | a <;>
    simp_all [StateInv, le_max_iff]

theorem stInv_apply_paused {p : PState} (now : ℚ) (b : Bool) (h : StateInv p) :
    StateInv (apply_paused now b p) := by
  obtain ⟨h1, h2, h3⟩ := h
  unfold apply_paused
  rcases ht : p.track with _ | t
  · simp_all [StateInv]
  · rcases hb : b with _ | _ <;> rcases hp : p.paused with _ | _ <;>
      rcases ha : p.anchor with _ | a <;>
      simp_all [StateInv] <;> positivity

theorem stInv_apply_position {p : PState} (now q : ℚ) (h : StateInv p) :
    StateInv (apply_position now q p) := by
  obtain ⟨h1, h2, h3⟩ := h
  unfold apply_position
  rcases hp : p.paused with _ | _ <;> simp_all [StateInv, le_max_iff]

theorem stInv_select_finish (now : ℚ) (t : String)
    (pos : Option ℚ) (p : PState) :
    StateInv (finish_tick now (select_fields now t (some false) pos p)) := by
  unfold select_fields finish_tick
  simp [StateInv, le_max_iff]

theorem stInv_set_state_ok {tracks : List String} {now : ℚ} {track : Option String}
    {paused : Option Bool} {position : Option ℚ} {p p' : PState} {ev : Event}
    (h : StateInv p) (hpa : track ≠ none → paused = some false)
    (hok : set_state tracks now track paused position p = Except.ok (p', ev)) :
    StateInv p' := by
  rcases track with _ | t
  · unfold set_state at hok
    simp only [Except.ok.injEq, Prod.mk.injEq] at hok
    obtain ⟨h1, -⟩ := hok
    subst h1
    rcases paused with _ | b <;> rcases position with _ | q <;>
      simp only <;>
      first
        | exact stInv_finish_tick now h
        | exact stInv_finish_tick now (stInv_apply_position now q h)
        | exact stInv_finish_tick now (stInv_apply_paused now b h)
        | exact stInv_finish_tick now (stInv_apply_position now q (stInv_apply_paused now b h))
  · have hb : paused = some false := hpa (by simp)
    subst hb
    by_cases hmem : t ∈ tracks
    · simp only [set_state, hmem, if_true, Except.ok.injEq, Prod.mk.injEq] at hok
      obtain ⟨h1, -⟩ := hok
      subst h1
      exact stInv_select_finish now t position p
    · simp [set_state, hmem] at hok

theorem stInv_add_core {tracks : List String} {s : Sys} (now : ℚ) (batch : List String)
    (h : StateInv s.pstate) : StateInv ((add_to_queue_core tracks now batch s).1).pstate := by
  unfold add_to_queue_core
  by_cases ht : s.pstate.track = none
  · simp only [ht, if_true]
    rcases hq : s.queue ++ batch with _ | ⟨nxt, rest⟩
    · simpa using h
    · simp only
      rcases hss : set_state tracks now (some nxt) (some false) (some 0) s.pstate with e | ⟨p', ev⟩
      · simpa using h
      · simpa using stInv_set_state_ok h (fun _ => rfl) hss
  · simp only [ht, if_false]
    simpa using h

theorem stInv_queue_advance {tracks : List String} {s : Sys} (now : ℚ)
    (h : StateInv s.pstate) : StateInv ((queue_advance tracks now s).1).pstate := by
  unfold queue_advance pop_next
  rcases hq : s.queue with _ | ⟨x, rest⟩
  · simp only
    rcases hss : set_state tracks now none (some true) (some 0) s.pstate with e | ⟨p', ev⟩
    · simpa using h
    · simpa using stInv_set_state_ok h (fun hc => absurd rfl hc) hss
  · simp only
    by_cases hx : x = ""
    · simp only [hx, if_true]
      rcases hss : set_state tracks now none (some true) (some 0) s.pstate with e | ⟨p', ev⟩
      · simpa using h
      · simpa using stInv_set_state_ok h (fun hc => absurd rfl hc) hss
    · simp only [hx, if_false]
      rcases hss : set_state tracks now (some x) (some false) (some 0) s.pstate with e | ⟨p', ev⟩
      · simpa using h
      · simpa using stInv_set_state_ok h (fun _ => rfl) hss

theorem stInv_applyOp {tracks : List String} {s : Sys} (now : ℚ) (op : Op)
    (h : StateInv s.pstate) : StateInv ((applyOp tracks now op s).1).pstate := by
  rcases op with ⟨t, pos⟩ | b | pos | items | ⟨items, batch⟩ | i | _ | _ | _
  · simp only [applyOp]
    by_cases ht : t = ""
    · simp only [ht, if_true]
      exact h
    · simp only [ht, if_false]
      rcases hss : set_state tracks now (some t) (some false) pos s.pstate with e | ⟨p', ev⟩
      · simpa using h
      · simpa using stInv_set_state_ok h (fun _ => rfl) hss
  · simp only [applyOp]
    rcases hss : set_state tracks now none (some b) none s.pstate with e | ⟨p', ev⟩
    · simpa using h
    · simpa using stInv_set_state_ok h (fun hc => absurd rfl hc) hss
  · simp only [applyOp]
    rcases hss : set_state tracks now none none (some pos) s.pstate with e | ⟨p', ev⟩
    · simpa using h
    · simpa using stInv_set_state_ok h (fun hc => absurd rfl hc) hss
  · exact stInv_add_core now (valid_items tracks items) h
  · exact stInv_add_core now batch h
  · simp only [applyOp, remove_from_queue]
    split
    · exact h
    · exact h
  · exact h
  · exact stInv_queue_advance now h
  · simp only [applyOp, pop_next]
    rcases hq : s.queue with _ | ⟨x, rest⟩
    · simpa using h
    · simpa using h

theorem stInv_reach {tracks : List String} {s : Sys} (h : Reach tracks s) :
    StateInv s.pstate := by
  induction h with
  | init t0 => exact stInv_initState t0
  | step op now _ hok ih => exact stInv_applyOp now op ih

theorem applyOp_setPaused_eq (tracks : List String) (now : ℚ) (b : Bool) (s : Sys) :
    applyOp tracks now (Op.setPaused b) s =
      (⟨finish_tick now (apply_paused now b s.pstate), s.queue⟩,
       [state_event (finish_tick now (apply_paused now b s.pstate))]) := rfl

theorem applyOp_setPosition_eq (tracks : List String) (now q : ℚ) (s : Sys) :
    applyOp tracks now (Op.setPosition q) s =
      (⟨finish_tick now (apply_position now q s.pstate), s.queue⟩,
       [state_event (finish_tick now (apply_position now q s.pstate))]) := rfl

theorem snap_pos_of_paused {p : PState} (now : ℚ) (h : p.paused = true) :
    snap_pos now p = p.position := by
  unfold snap_pos api_state
  rcases ha : p.anchor with _ | a <;> simp [h]

theorem api_state_of_paused {p : PState} (now : ℚ) (h : p.paused = true) :
    api_state now p = p := by
  unfold api_state
  rcases ha : p.anchor with _ | a <;> simp [h]

theorem snap_pos_mono_time {p : PState} {t1 t2 : ℚ} (h : t1 ≤ t2) :
    snap_pos t1 p ≤ snap_pos t2 p := by
  obtain ⟨tr, pa, pos, upd, an⟩ := p
  rcases an with _ | a
  · simp [snap_pos, api_state]
  · rcases pa with _ | _
    · show max 0 (t1 - a) ≤ max 0 (t2 - a)
      exact max_le_max le_rfl (sub_le_sub_right h a)
    · simp [snap_pos, api_state]

theorem apply_paused_track (now : ℚ) (b : Bool) (p : PState) :
    (apply_paused now b p).track = p.track := by
  obtain ⟨tr, pa, pos, upd, an⟩ := p
  rcases tr with _ | t <;> rcases pa with _ | _ <;> rcases an with _ | a <;>
    rcases b with _ | _ <;> simp [apply_paused]

theorem finish_tick_track (now : ℚ) (p : PState) :
    (finish_tick now p).track = p.track := by
  obtain ⟨tr, pa, pos, upd, an⟩ := p
  rcases pa with _ | _ <;> rcases an with _ | a <;> simp [finish_tick]

theorem snap_step_resume {p : PState} (u : ℚ) (ht : p.track ≠ none) :
    snap_pos u p ≤ snap_pos u (finish_tick u (apply_paused u false p)) := by
  obtain ⟨tr, pa, pos, upd, an⟩ := p
  rcases tr with _ | t
  · simp at ht
  rcases pa with _ | _
  · rcases an with _ | a
    · simp [apply_paused, finish_tick, snap_pos, api_state]
    · simp [apply_paused, finish_tick, snap_pos, api_state]
  · rcases an with _ | a <;>
      · have hs : u - (u - pos) = pos := by ring
        simp [apply_paused, finish_tick, snap_pos, api_state, hs]

theorem pause_pause_eq {p : PState} (u : ℚ) (hp : p.paused = true) (ht : p.track ≠ none) :
    finish_tick u (apply_paused u true p) = { p with updated := u } := by
  obtain ⟨tr, pa, pos, upd, an⟩ := p
  rcases tr with _ | t
  · simp at ht
  simp only at hp
  subst hp
  simp [apply_paused, finish_tick]

theorem snap_mono_run (tracks : List String) (tr : List (ℚ × Op)) :
    ∀ (s : Sys) (t1 t2 : ℚ), s.pstate.track ≠ none →
      (∀ e ∈ tr, e.2 = Op.setPaused false) → times_chain t1 tr t2 →
      snap_pos t1 s.pstate ≤ snap_pos t2 (run_ops tracks s tr).pstate := by
  induction tr with
  | nil =>
      intro s t1 t2 ht hops hchain
      exact snap_pos_mono_time hchain
  | cons hd rest ih =>
      obtain ⟨u, op⟩ := hd
      intro s t1 t2 ht hops hchain
      obtain ⟨h1, h2⟩ := hchain
      have hop : op = Op.setPaused false := hops (u, op) (by simp)
      subst hop
      rw [run_ops, applyOp_setPaused_eq]
      have ht' : (finish_tick u (apply_paused u false s.pstate)).track ≠ none := by
        rw [finish_tick_track, apply_paused_track]
        exact ht
      have step1 : snap_pos t1 s.pstate ≤ snap_pos u (finish_tick u (apply_paused u false s.pstate)) :=
        le_trans (snap_pos_mono_time h1) (snap_step_resume u ht)
      exact le_trans step1
        (ih ⟨finish_tick u (apply_paused u false s.pstate), s.queue⟩ u t2 ht'
          (fun e he => hops e (List.mem_cons_of_mem _ he)) h2)

theorem flat_run (tracks : List String) (tr : List (ℚ × Op)) :
    ∀ (s : Sys), s.pstate.paused = true → s.pstate.track ≠ none →
      (∀ e ∈ tr, e.2 = Op.setPaused true) →
      (run_ops tracks s tr).pstate.paused = true ∧
      (run_ops tracks s tr).pstate.position = s.pstate.position := by
  induction tr with
  | nil =>
      intro s hp ht hops
      exact ⟨hp, rfl⟩
  | cons hd rest ih =>
      obtain ⟨u, op⟩ := hd
      intro s hp ht hops
      have hop : op = Op.setPaused true := hops (u, op) (by simp)
      subst hop
      rw [run_ops, applyOp_setPaused_eq, pause_pause_eq u hp ht]
      have := ih ⟨{ s.pstate with updated := u }, s.queue⟩ hp ht
        (fun e he => hops e (List.mem_cons_of_mem _ he))
      exact this

theorem broadcast_try_aux (ev : Event) :
    ∀ (subs : List Subscriber) (acc : List (Nat × Event) × List Subscriber),
      subs.foldl
        (fun acc q =>
          if q.accepts then (acc.1 ++ [(q.sid, ev)], acc.2) else (acc.1, acc.2 ++ [q]))
        acc =
      (acc.1 ++ (subs.filter (fun q => q.accepts)).map (fun q => (q.sid, ev)),
       acc.2 ++ subs.filter (fun q => !q.accepts)) := by
  intro subs
  induction subs with
  | nil => intro acc; simp
  | cons q rest ih =>
      intro acc
      rcases hq : q.accepts with _ | _ <;>
        simp [List.foldl_cons, hq, ih, List.filter_cons]

theorem broadcast_try_spec (subs : List Subscriber) (ev : Event) :
    broadcast_try subs ev =
      ((subs.filter (fun q => q.accepts)).map (fun q => (q.sid, ev)),
       subs.filter (fun q => !q.accepts)) := by
  unfold broadcast_try
  simpa using broadcast_try_aux ev subs ([], [])

theorem erase_foldl_cons_ne {α : Type} [DecidableEq α] (x : α) :
    ∀ (es l : List α), (∀ e ∈ es, e ≠ x) →
      es.foldl (fun a y => a.erase y) (x :: l) = x :: es.foldl (fun a y => a.erase y) l := by
  intro es
  induction es with
  | nil => intro l h; rfl
  | cons e es ih =>
      intro l h
      have hne : x ≠ e := fun hc => (h e (by simp)) hc.symm
      rw [List.foldl_cons, List.foldl_cons, List.erase_cons_tail (not_beq_of_ne hne)]
      exact ih (l.erase e) (fun e' he' => h e' (by simp [he']))

theorem foldl_erase_filter (p : Subscriber → Bool) :
    ∀ (l : List Subscriber),
      (l.filter (fun x => !(p x))).foldl (fun a y => a.erase y) l = l.filter p := by
  intro l
  induction l with
  | nil => rfl
  | cons x xs ih =>
      rcases hx : p x with _ | _
      · simp only [List.filter_cons, hx, Bool.not_false, if_true, if_false]
        rw [List.foldl_cons, List.erase_cons_head]
        exact ih
      · simp only [List.filter_cons, hx, Bool.not_true]
        rw [if_neg (by simp), erase_foldl_cons_ne x _ _ ?mem, ih]
        · simp
        case mem =>
          intro e he hc
          have := (List.mem_filter.mp he).2
          rw [hc, hx] at this
          simpa using this

theorem remove_stale_spec (subs : List Subscriber) :
    remove_stale subs (subs.filter (fun q => !q.accepts)) =
      subs.filter (fun q => q.accepts) := by
  unfold remove_stale
  exact foldl_erase_filter (fun q => q.accepts) subs

theorem finish_tick_of_paused {p : PState} (u : ℚ) (hp : p.paused = true) :
    finish_tick u p = { p with updated := u } := by
  unfold finish_tick
  simp [hp]

theorem apply_paused_of_no_track {p : PState} (u : ℚ) (b : Bool) (ht : p.track = none) :
    apply_paused u b p = { p with paused := true } := by
  unfold apply_paused
  simp [ht]

/-! ## The claims -/

/-- Claim C5: in every state reachable from the initial state by any sequence
of selectTrack/setPaused/setPosition/queue operations, the anchor is present
iff `paused = false` and a track is present, and the stored position is never
negative. -/
theorem C5_reachable_invariant (tracks : List String) (s : Sys) (h : Reach tracks s) :
    ((s.pstate.anchor ≠ none) ↔ (s.pstate.paused = false ∧ s.pstate.track ≠ none)) ∧
    0 ≤ s.pstate.position := by
  obtain ⟨h1, h2, h3⟩ := stInv_reach h
  exact ⟨h1, h2⟩

/-- witness for C5: the invariant holds in the concrete state reached by
adding (and auto-starting) a discoverable track from the initial state. -/
theorem C5_reachable_invariant_witness :
    (((applyOp ["a.mp3"] 3 (Op.queueAdd ["a.mp3"]) ⟨initState 0, []⟩).1.pstate.anchor ≠ none) ↔
      ((applyOp ["a.mp3"] 3 (Op.queueAdd ["a.mp3"]) ⟨initState 0, []⟩).1.pstate.paused = false ∧
       (applyOp ["a.mp3"] 3 (Op.queueAdd ["a.mp3"]) ⟨initState 0, []⟩).1.pstate.track ≠ none)) ∧
    0 ≤ (applyOp ["a.mp3"] 3 (Op.queueAdd ["a.mp3"]) ⟨initState 0, []⟩).1.pstate.position :=
  C5_reachable_invariant ["a.mp3"] _
    (Reach.step (Op.queueAdd ["a.mp3"]) 3 (Reach.init 0) trivial)

/-- Claim C6: `selectTrack` fails with NotFound (`FileNotFoundError`) exactly
when the id is not in the discoverable track set, and on that failure the
whole playback record (including `updated`) and the queue are unchanged and
nothing is broadcast. -/
theorem C6_selectTrack_not_found (tracks : List String) (t : String) (p : Option ℚ)
    (now : ℚ) (s : Sys) :
    (t ∉ tracks ↔
      set_state tracks now (some t) (some false) p s.pstate = Except.error t) ∧
    (t ∉ tracks → applyOp tracks now (Op.selectTrack t p) s = (s, [])) := by
  constructor
  · constructor
    · intro hm
      simp [set_state, hm]
    · intro he hm
      simp [set_state, hm] at he
  · intro hm
    by_cases ht : t = ""
    · simp [applyOp, ht]
    · simp [applyOp, ht, set_state, hm]

/-- witness for C6: selecting a non-discoverable track errors and leaves the
initial state untouched. -/
theorem C6_selectTrack_not_found_witness :
    ("x.mp3" ∉ ["a.mp3"] ↔
      set_state ["a.mp3"] 0 (some ("x.mp3")) (some false) none (initState 0) =
        Except.error ("x.mp3")) ∧
    applyOp ["a.mp3"] 0 (Op.selectTrack ("x.mp3") none) ⟨initState 0, []⟩ =
      (⟨initState 0, []⟩, []) :=
  ⟨(C6_selectTrack_not_found ["a.mp3"] ("x.mp3") none 0 ⟨initState 0, []⟩).1,
   (C6_selectTrack_not_found ["a.mp3"] ("x.mp3") none 0 ⟨initState 0, []⟩).2 (by simp)⟩

/-- Claim C8: `_broadcast_event` is total (no exception reaches the caller);
every subscriber whose channel accepts the put receives the event, every
subscriber whose put fails is removed from the live set, and the others (and
the deliveries to them) are unaffected. -/
theorem C8_broadcast_isolation (subs : List Subscriber) (ev : Event) :
    broadcast_event subs ev =
      (subs.filter (fun q => q.accepts),
       (subs.filter (fun q => q.accepts)).map (fun q => (q.sid, ev))) := by
  simp only [broadcast_event, broadcast_try_spec, remove_stale_spec]

/-- Claim C10: playback mutations never change the queue, and pure queue
mutations (`remove`, `clear`, `popFront`) never change any field of the
playback record. -/
theorem C10_frame_disjoint (tracks : List String) (now : ℚ) (s : Sys) (b : Bool)
    (q : ℚ) (i : ℤ) :
    ((applyOp tracks now (Op.setPaused b) s).1.queue = s.queue) ∧
    ((applyOp tracks now (Op.setPosition q) s).1.queue = s.queue) ∧
    ((applyOp tracks now (Op.queueRemove i) s).1.pstate = s.pstate) ∧
    ((applyOp tracks now Op.queueClear s).1.pstate = s.pstate) ∧
    ((applyOp tracks now Op.popFront s).1.pstate = s.pstate) := by
  refine ⟨?_, ?_, ?_, ?_, ?_⟩
  · rw [applyOp_setPaused_eq]
  · rw [applyOp_setPosition_eq]
  · simp only [applyOp, remove_from_queue]
    split <;> rfl
  · rfl
  · obtain ⟨ps, qs⟩ := s
    rcases qs with _ | ⟨x, rest⟩ <;> rfl

/-- Claim C9: ordinary misuse is silently absorbed: an out-of-bounds
`queueRemove` leaves queue and events untouched, `popFront` on an empty queue
returns `none` and changes nothing, and `setPaused` with no track selected
leaves track/paused/position/anchor unchanged (in a reachable state the
record is already paused) while still broadcasting one state event (which
refreshes only the diagnostic `updated` stamp). -/
theorem C9_misuse_ignored (tracks : List String) (s : Sys) (i : ℤ) (b : Bool) (now : ℚ) :
    (¬(0 ≤ i ∧ i < (s.queue.length : ℤ)) → remove_from_queue i s = (s, [])) ∧
    (s.queue = [] → pop_next s = (none, s, [])) ∧
    (Reach tracks s → s.pstate.track = none →
      ((applyOp tracks now (Op.setPaused b) s).1.pstate.track = s.pstate.track ∧
       (applyOp tracks now (Op.setPaused b) s).1.pstate.paused = s.pstate.paused ∧
       (applyOp tracks now (Op.setPaused b) s).1.pstate.position = s.pstate.position ∧
       (applyOp tracks now (Op.setPaused b) s).1.pstate.anchor = s.pstate.anchor ∧
       (applyOp tracks now (Op.setPaused b) s).2 =
         [state_event (applyOp tracks now (Op.setPaused b) s).1.pstate])) := by
  refine ⟨?_, ?_, ?_⟩
  · intro h
    simp [remove_from_queue, h]
  · intro h
    simp [pop_next, h]
  · intro hr htr
    have hp : s.pstate.paused = true := (stInv_reach hr).2.2 htr
    rw [applyOp_setPaused_eq, apply_paused_of_no_track now b htr,
      finish_tick_of_paused now (by simp)]
    simp [hp]

/-- witness for C9: out-of-bounds removal, empty pop and trackless pause on
the initial state. -/
theorem C9_misuse_ignored_witness :
    (remove_from_queue 5 ⟨initState 0, []⟩ = (⟨initState 0, []⟩, [])) ∧
    (pop_next ⟨initState 0, []⟩ = (none, ⟨initState 0, []⟩, [])) ∧
    ((applyOp [] 3 (Op.setPaused false) ⟨initState 0, []⟩).1.pstate.track =
        (initState 0).track ∧
      (applyOp [] 3 (Op.setPaused false) ⟨initState 0, []⟩).1.pstate.paused =
        (initState 0).paused ∧
      (applyOp [] 3 (Op.setPaused false) ⟨initState 0, []⟩).1.pstate.position =
        (initState 0).position ∧
      (applyOp [] 3 (Op.setPaused false) ⟨initState 0, []⟩).1.pstate.anchor =
        (initState 0).anchor ∧
      (applyOp [] 3 (Op.setPaused false) ⟨initState 0, []⟩).2 =
        [state_event (applyOp [] 3 (Op.setPaused false) ⟨initState 0, []⟩).1.pstate]) :=
  ⟨(C9_misuse_ignored [] ⟨initState 0, []⟩ 5 false 3).1 (by simp),
   (C9_misuse_ignored [] ⟨initState 0, []⟩ 5 false 3).2.1 rfl,
   (C9_misuse_ignored [] ⟨initState 0, []⟩ 5 false 3).2.2 (Reach.init 0) rfl⟩

/-- counterexample to Claim C7 as stated: over the interval `[0, 2]` the
record stays `paused = true` throughout (a seek does not unpause), yet a
`setPosition 7` at instant 1 moves the reported snapshot position from 5 to
7, so the snapshot is not constant over an interval during which
`paused = true`. -/
theorem C7_paused_seek_counterexample :
    times_chain 0 [((1 : ℚ), Op.setPosition 7)] 2 ∧
    (⟨some ("a.mp3"), true, 5, 0, none⟩ : PState).paused = true ∧
    (run_ops ["a.mp3"] ⟨⟨some ("a.mp3"), true, 5, 0, none⟩, []⟩
        [(1, Op.setPosition 7)]).pstate.paused = true ∧
    snap_pos 2 (run_ops ["a.mp3"] ⟨⟨some ("a.mp3"), true, 5, 0, none⟩, []⟩
        [(1, Op.setPosition 7)]).pstate ≠
      snap_pos 0 (⟨some ("a.mp3"), true, 5, 0, none⟩ : PState) := by
  refine ⟨by simp [times_chain], rfl, ?_, ?_⟩
  · simp [run_ops, applyOp, set_state, apply_position, finish_tick]
  · simp [run_ops, applyOp, set_state, apply_position, finish_tick, snap_pos, api_state]

/-- Claim C7 as amended: while a track is set, the reported snapshot position
is monotonically non-decreasing over any interval containing no pause and no
seek, and is exactly constant over any interval during which `paused = true`
and which contains no seek. -/
theorem C7_monotone_and_flat (tracks : List String) (s : Sys) (t1 t2 : ℚ)
    (tr : List (ℚ × Op)) (ht : s.pstate.track ≠ none)
    (hchain : times_chain t1 tr t2) :
    ((∀ e ∈ tr, e.2 = Op.setPaused false) →
      snap_pos t1 s.pstate ≤ snap_pos t2 (run_ops tracks s tr).pstate) ∧
    (s.pstate.paused = true → (∀ e ∈ tr, e.2 = Op.setPaused true) →
      snap_pos t2 (run_ops tracks s tr).pstate = snap_pos t1 s.pstate) := by
  constructor
  · intro hops
    exact snap_mono_run tracks tr s t1 t2 ht hops hchain
  · intro hp hops
    obtain ⟨hp', hpos⟩ := flat_run tracks tr s hp ht hops
    rw [snap_pos_of_paused t2 hp', snap_pos_of_paused t1 hp, hpos]

/-- witness for C7: a resume call during a playing interval keeps the
snapshot non-decreasing, and a redundant pause call during a paused interval
keeps it exactly flat. -/
theorem C7_monotone_and_flat_witness :
    (snap_pos 0 (⟨some ("a.mp3"), false, 0, 0, some 0⟩ : PState) ≤
      snap_pos 2 (run_ops ["a.mp3"] ⟨⟨some ("a.mp3"), false, 0, 0, some 0⟩, []⟩
        [(1, Op.setPaused false)]).pstate) ∧
    (snap_pos 2 (run_ops ["a.mp3"] ⟨⟨some ("a.mp3"), true, 5, 0, none⟩, []⟩
        [(1, Op.setPaused true)]).pstate =
      snap_pos 0 (⟨some ("a.mp3"), true, 5, 0, none⟩ : PState)) :=
  ⟨(C7_monotone_and_flat ["a.mp3"] ⟨⟨some ("a.mp3"), false, 0, 0, some 0⟩, []⟩ 0 2
      [(1, Op.setPaused false)] (by simp) (by simp [times_chain])).1
      (by intro e he; simp at he; rw [he]),
   (C7_monotone_and_flat ["a.mp3"] ⟨⟨some ("a.mp3"), true, 5, 0, none⟩, []⟩ 0 2
      [(1, Op.setPaused true)] (by simp) (by simp [times_chain])).2 rfl
      (by intro e he; simp at he; rw [he])⟩

/-- Claim C1 (code behaviour at the claim's failing input): with the record
`track = "a.mp3", paused = false, position = 10` established at `T = 100`
(so `anchor = 90`), the snapshot at the pause instant `T + 5 = 105` is 15,
but `setPaused(true)` stores position 25, not 15: the play→pause branch adds
the elapsed value to the already-synced stored position. The anchor is
correctly dropped. -/
theorem C1_pause_double_count :
    snap_pos 105 (⟨some ("a.mp3"), false, 10, 100, some 90⟩ : PState) = 15 ∧
    ((applyOp ["a.mp3"] 105 (Op.setPaused true)
        ⟨⟨some ("a.mp3"), false, 10, 100, some 90⟩, []⟩).1).pstate.position = 25 ∧
    ((applyOp ["a.mp3"] 105 (Op.setPaused true)
        ⟨⟨some ("a.mp3"), false, 10, 100, some 90⟩, []⟩).1).pstate.anchor = none ∧
    (25 : ℚ) ≠ 15 := by
  refine ⟨?_, ?_, ?_, by norm_num⟩
  · simp [snap_pos, api_state]
    norm_num
  · simp [applyOp, set_state, apply_paused, finish_tick]
    norm_num
  · simp [applyOp, set_state, apply_paused, finish_tick]

/-- Claim C3 (code behaviour at the claim's failing input): `queueAdvance` on
an empty queue pauses and rewinds but does NOT clear the track: the
`_set_state(track=None, ...)` call cannot distinguish "clear the track" from
"track argument not passed", so the old track survives. -/
theorem C3_advance_empty_keeps_track :
    (applyOp ["a.mp3"] 5 Op.queueAdvance
        ⟨⟨some ("a.mp3"), false, 10, 0, some 0⟩, []⟩).1.pstate =
      ⟨some ("a.mp3"), true, 0, 5, none⟩ ∧
    (some ("a.mp3") : Option String) ≠ none := by
  refine ⟨?_, by simp⟩
  simp [applyOp, queue_advance, pop_next, set_state, apply_paused, apply_position, finish_tick]

/-- counterexample to Claim C2 as stated: a subscriber joining at instant 5
while the record is playing (`anchor = 0`, stored position still 0) receives
as its first event the raw stored record, not the anchor-resolved snapshot
`/state` would return (position 5). -/
theorem C2_stale_initial_snapshot :
    (subscribe_init ⟨⟨some ("a.mp3"), false, 0, 0, some 0⟩, ["b.mp3"]⟩).head? ≠
      some (state_event (api_state 5 ⟨some ("a.mp3"), false, 0, 0, some 0⟩)) := by
  simp [subscribe_init, state_event, api_state]

/-- Claim C2 as amended: a newly connected subscriber receives, before any
other event, exactly two initial events: a state snapshot carrying the stored
playback record as of join time (equal to what `getSnapshot()` returns when
the record is paused, but carrying the stored, unresolved position when
playing), followed by a queue snapshot equal to `getQueue()` at join time. -/
theorem C2_initial_events (s : Sys) (now : ℚ) :
    subscribe_init s = [state_event s.pstate, Event.playlist s.queue] ∧
    (s.pstate.paused = true → state_event (api_state now s.pstate) = state_event s.pstate) :=
  ⟨rfl, fun h => by rw [api_state_of_paused now h]⟩

/-- witness for C2: a paused record's initial state event does agree with the
resolved snapshot. -/
theorem C2_initial_events_witness :
    subscribe_init ⟨initState 0, ["b.mp3"]⟩ =
      [state_event (initState 0), Event.playlist ["b.mp3"]] ∧
    state_event (api_state 7 (initState 0)) = state_event (initState 0) :=
  ⟨(C2_initial_events ⟨initState 0, ["b.mp3"]⟩ 7).1,
   (C2_initial_events ⟨initState 0, ["b.mp3"]⟩ 7).2 rfl⟩

/-- counterexample to Claim C4 as stated: the events emitted by
`queueAdd(["a.mp3","b.mp3"])` from the empty idle state are not a state event
followed by a queue event carrying the post-pop queue `["b.mp3"]`. -/
theorem C4_event_order_counterexample :
    (applyOp ["a.mp3", "b.mp3"] 0 (Op.queueAdd ["a.mp3", "b.mp3"])
        ⟨initState 0, []⟩).2 ≠
      [Event.state (some ("a.mp3")) false 0 0, Event.playlist ["b.mp3"]] := by
  simp [applyOp, add_to_queue_core, valid_items, set_state, select_fields, finish_tick,
    initState, state_event]

/-- Claim C4 as amended: from an empty queue and no selected track,
`queueAdd(["a.mp3","b.mp3"])` (both discoverable) leaves `track = "a.mp3"`
and queue `["b.mp3"]`, and emits exactly one queue event and one state event,
in that order, the queue event carrying the pre-pop queue
`["a.mp3","b.mp3"]`. -/
theorem C4_add_scenario :
    applyOp ["a.mp3", "b.mp3"] 0 (Op.queueAdd ["a.mp3", "b.mp3"]) ⟨initState 0, []⟩ =
      (⟨⟨some ("a.mp3"), false, 0, 0, some 0⟩, ["b.mp3"]⟩,
       [Event.playlist ["a.mp3", "b.mp3"], Event.state (some ("a.mp3")) false 0 0]) := by
  simp [applyOp, add_to_queue_core, valid_items, set_state, select_fields, finish_tick,
    initState, state_event]
